import Mathlib

/-!
Shallow embedding of the `boolset` linter core (`src/boolset/analyzer.go`).

The Go analyzer consumes a parsed syntax forest plus a resolved `go/types`
table (`types.Info`, `types.Package`).  Here the external table is inlined
into the syntax nodes: each identifier carries its `Defs`/`Uses` resolution,
each expression carries its `types.Info.Types` entry (static type and
constant-folded value).  Objects (`types.Object`) are modelled as records
whose structural equality plays the role of Go's pointer identity; the two
identity-keyed Go maps (`results`, `boolValues`) become association lists
keyed by the full object, in insertion order (Go map iteration order is
unspecified; the list order is one admissible iteration order).

The walk (`ast.Inspect` in `inspectFile`) is flattened to the pre-order
list of the two statement forms the analyzer dispatches on
(`*ast.AssignStmt`, `*ast.ValueSpec`).  `*ast.CompositeLit` nodes are
handled when their parent statement is processed: a composite literal that
is not a direct right-hand-side element of a `ValueSpec` or `AssignStmt`
makes `objectForComposite` return nil, so `infoFor` returns nil and
`handleComposite` has no effect; such occurrences are therefore omitted
from the flattened walk without loss.
-/

/-- Source positions (`token.Pos`); `0` models `token.NoPos`, and
`IsValid` is `≠ noPos`. -/
abbrev Pos := Nat

def noPos : Pos := 0

/-- A compilation unit (`*types.Package`): identity, short name, and the
identity of its package scope (`Pkg().Scope()`). -/
structure Package where
  id : Nat
  name : String
  scopeId : Nat
deriving DecidableEq, Repr

/-- Key type of a map, as consumed by `types.TypeString`: either a type
rendered by a fixed string (basic types), or a named type owned by a
package, rendered subject to the qualifier. -/
inductive KeyT where
  | plainK (render : String)
  | namedK (pkg : Option Package) (name : String)
deriving DecidableEq, Repr

/-- Static types as far as the analyzer inspects them: `tyBool` is a basic
type of kind `types.Bool`; `tyMapT` is a `*types.Map`; `tyNamed` is a
named type with the given underlying type; everything else is `tyOther`. -/
inductive Ty where
  | tyBool
  | tyMapT (key : KeyT) (elem : Ty)
  | tyNamed (u : Ty)
  | tyOther
deriving DecidableEq, Repr

/-- `types.Type.Underlying`: strips one level of naming. -/
def Ty.underlying : Ty → Ty
  | .tyNamed u => u
  | t => t

/-- `isBool` from analyzer.go: the underlying type is a basic type of kind
`types.Bool`. -/
def isBool (t : Ty) : Bool :=
  match t.underlying with
  | .tyBool => true
  | _ => false

/-- Object kinds the analyzer distinguishes (`*types.Var`, `*types.Const`,
anything else). -/
inductive ObjKind where
  | varK
  | constK
  | otherK
deriving DecidableEq, Repr

/-- A `types.Object`.  `constVal` is `some b` when the object is a constant
whose `Val()` is a boolean constant `b` (and irrelevant otherwise);
`parent` is the identity of `Parent()`; `pkg` is `Pkg()`; `pos` is `Pos()`;
`typ` is `Type()` (never nil for a resolved object, so modelled total). -/
structure Object where
  id : Nat
  kind : ObjKind
  constVal : Option Bool
  isField : Bool
  parent : Option Nat
  pkg : Option Package
  pos : Pos
  typ : Ty
deriving DecidableEq, Repr

/-- A constant value as the analyzer reads it (`tv.Value`): a boolean
constant, or a constant of some other kind. -/
inductive CVal where
  | boolC (b : Bool)
  | otherC
deriving DecidableEq, Repr

/-- A `types.TypeAndValue` entry (`info.Types[expr]`): static type (nil
possible) and optional constant-folded value. -/
structure TV where
  typ : Option Ty
  val : Option CVal
deriving DecidableEq, Repr

/-- `token.Token` as far as the analyzer tests it. -/
inductive Tok where
  | assignT
  | defineT
  | otherT
deriving DecidableEq, Repr

mutual
/-- Expression nodes the analyzer dispatches on, with the front-end table
inlined: identifiers carry `info.Uses`/`info.Defs`, selectors carry
`info.Selections[e].Obj()` and `info.Uses[e.Sel]`, every node carries its
`info.Types` entry and its `Pos()`. -/
inductive Expr where
  | identE (name : String) (uses defs : Option Object) (tv : Option TV) (pos : Pos)
  | indexE (x : Expr) (tv : Option TV) (pos : Pos)
  | selE (selObj usesSel : Option Object) (tv : Option TV) (pos : Pos)
  | parenE (x : Expr) (tv : Option TV) (pos : Pos)
  | compLitE (tv : Option TV) (elts : List CompElt) (pos : Pos)
  | otherE (tv : Option TV) (pos : Pos)
/-- An element of a composite literal: a `*ast.KeyValueExpr` or anything
else. -/
inductive CompElt where
  | kvElt (value : Expr)
  | plainElt (value : Expr)
end

/-- The `info.Types` entry of a node. -/
def Expr.tvOf : Expr → Option TV
  | .identE _ _ _ tv _ => tv
  | .indexE _ tv _ => tv
  | .selE _ _ tv _ => tv
  | .parenE _ tv _ => tv
  | .compLitE tv _ _ => tv
  | .otherE tv _ => tv

/-- The `Pos()` of a node. -/
def Expr.posOf : Expr → Pos
  | .identE _ _ _ _ p => p
  | .indexE _ _ p => p
  | .selE _ _ _ p => p
  | .parenE _ _ p => p
  | .compLitE _ _ p => p
  | .otherE _ p => p

/-- One name of a `ValueSpec` (`spec.Names[i]`) with its `Defs`/`Uses`
resolution. -/
structure NameBind where
  name : String
  defs : Option Object
  uses : Option Object

/-- The two statement forms `inspectFile` dispatches on, in walk
(pre-order) position. -/
inductive WStmt where
  | assignS (lhs rhs : List Expr) (tok : Tok)
  | valueS (names : List NameBind) (values : List Expr)

/-- `truthState` from analyzer.go. -/
inductive truthState where
  | truthUnknown
  | truthAlwaysTrue
  | truthNotAlwaysTrue
deriving DecidableEq, Repr

/-- `mapInfo` from analyzer.go (one registry record per map binding). -/
structure MapInfo where
  obj : Object
  onlyTrue : Bool
  trueCount : Nat
  pos : Pos
  keyType : String
deriving DecidableEq, Repr

/-- `Diagnostic` from analyzer.go. -/
structure Diagnostic where
  pos : Pos
  message : String
deriving DecidableEq, Repr

/-- The analyzer's mutable state: the registry `results` and the truth
table `boolValues`, both identity-keyed Go maps modelled as association
lists in insertion order. -/
structure AState where
  results : List MapInfo
  boolValues : List (Object × truthState)
deriving DecidableEq, Repr

/-- Go map read `a.boolValues[obj]` (zero value `truthUnknown` when
absent). -/
def lookupTruth (bv : List (Object × truthState)) (o : Object) : truthState :=
  match bv.find? (fun p => p.1 == o) with
  | some p => p.2
  | none => .truthUnknown

/-- Go map write `a.boolValues[obj] = ts`. -/
def updTruth (bv : List (Object × truthState)) (o : Object) (ts : truthState) : List (Object × truthState) :=
  match bv with
  | [] => [(o, ts)]
  | p :: rest => if p.1 == o then (o, ts) :: rest else p :: updTruth rest o ts

/-- Go map read `a.results[obj]`. -/
def findRec (rs : List MapInfo) (o : Object) : Option MapInfo :=
  rs.find? (fun mi => mi.obj == o)

/-- `makeQualifier` from analyzer.go (the `pkg == nil` guard is discharged
by `Analyze` before this is built). -/
def makeQualifier (pkg : Package) : Option Package → String :=
  fun other =>
    match other with
    | some o => if o == pkg then "" else o.name
    | none => ""

/-- Modelled from the spec's external front-end interface: the rendering
`types.TypeString(key, qualifier)` of a map key type, which writes a named
type as `name` when the qualifier maps its package to the empty string and
as `qual.name` otherwise, and writes other types by their fixed textual
form. -/
def typeStringK (q : Option Package → String) : KeyT → String
  | .plainK s => s
  | .namedK p n =>
    let qs := q p
    if qs = "" then n else qs ++ "." ++ n

/-- `objectIsDefinitelyTrue` from analyzer.go. -/
def objectIsDefinitelyTrue (st : AState) (obj : Object) : Bool :=
  match obj.kind with
  | .constK =>
    match obj.constVal with
    | some b => b
    | none => false
  | .varK => lookupTruth st.boolValues obj == .truthAlwaysTrue
  | .otherK => false

/-- The constant-folded boolean of a `types.TypeAndValue`, when its value
is present and of boolean kind (`constant.BoolVal`). -/
def constBoolOf : Option TV → Option Bool
  | some tv =>
    match tv.val with
    | some (.boolC b) => some b
    | _ => none
  | none => none

/-- `isDefinitelyTrue` from analyzer.go: constant-folded booleans first,
then identifier resolution (`Uses` before `Defs`), unwrapping parentheses;
everything else is not provably true. -/
def isDefinitelyTrue (st : AState) : Expr → Bool
  | .identE _ uses defs tv _ =>
    match constBoolOf tv with
    | some b => b
    | none =>
      match uses with
      | some o => objectIsDefinitelyTrue st o
      | none =>
        match defs with
        | some o => objectIsDefinitelyTrue st o
        | none => false
  | .parenE x tv _ =>
    match constBoolOf tv with
    | some b => b
    | none => isDefinitelyTrue st x
  | e =>
    match constBoolOf e.tvOf with
    | some b => b
    | none => false

/-- `isLocalVar` from analyzer.go (the `v == nil` guard is discharged by
the caller; comparisons of scopes and packages are by identity). -/
def isLocalVar (v : Object) : Bool :=
  if v.isField then false
  else
    match v.parent with
    | none => false
    | some scope =>
      let pkgScopeHit :=
        match v.pkg with
        | some p => scope == p.scopeId
        | none => false
      if pkgScopeHit then false
      else if v.pos == noPos then false
      else true

/-- `recordVarAssignment` from analyzer.go. -/
def recordVarAssignment (st : AState) (obj : Object) (rhs : Expr) : AState :=
  if obj.kind != .varK then st
  else if !(isBool obj.typ) then st
  else if !(isLocalVar obj) then st
  else if isDefinitelyTrue st rhs then
    if lookupTruth st.boolValues obj == .truthUnknown then
      { st with boolValues := updTruth st.boolValues obj .truthAlwaysTrue }
    else st
  else { st with boolValues := updTruth st.boolValues obj .truthNotAlwaysTrue }

/-- `trackVarAssignment` from analyzer.go. -/
def trackVarAssignment (st : AState) (lhs rhs : Expr) (tok : Tok) : AState :=
  match lhs with
  | .identE name uses defs _ _ =>
    if name == "_" then st
    else
      let obj0 := if tok == .defineT then defs else uses
      let obj1 :=
        match obj0 with
        | some o => some o
        | none => defs
      match obj1 with
      | none => st
      | some o => recordVarAssignment st o rhs
  | _ => st

/-- `mapObject` from analyzer.go. -/
def mapObject : Expr → Option Object
  | .identE _ uses defs _ _ =>
    match uses with
    | some o => some o
    | none => defs
  | .selE selObj usesSel _ _ =>
    match selObj with
    | some o => some o
    | none => usesSel
  | .parenE x _ _ => mapObject x
  | _ => none

/-- `objectOfAssignable` from analyzer.go (`Defs` before `Uses`, unlike
`mapObject`). -/
def objectOfAssignable : Expr → Option Object
  | .identE _ uses defs _ _ =>
    match defs with
    | some o => some o
    | none => uses
  | .selE selObj usesSel _ _ =>
    match selObj with
    | some o => some o
    | none => usesSel
  | .parenE x _ _ => objectOfAssignable x
  | _ => none

/-- `infoFor` from analyzer.go: returns the qualifying object (standing
for the non-nil `*mapInfo`) together with the state, lazily creating the
registry record on first access. -/
def infoFor (pkg : Package) (st : AState) (obj : Option Object) : Option Object × AState :=
  match obj with
  | none => (none, st)
  | some o =>
    let foreignPkg :=
      match o.pkg with
      | some p => p != pkg
      | none => false
    if foreignPkg then (none, st)
    else
      match o.typ.underlying with
      | .tyMapT key elem =>
        if isBool elem then
          match findRec st.results o with
          | some _ => (some o, st)
          | none =>
            let keyType := typeStringK (makeQualifier pkg) key
            (some o, { st with results := st.results ++ [{ obj := o, onlyTrue := true, trueCount := 0, pos := o.pos, keyType := keyType }] })
        else (none, st)
      | _ => (none, st)

/-- The update `mapInfo.recordAssignment` performs on its record. -/
def updateRec (st : AState) (rhs : Expr) (wpos : Pos) (mi : MapInfo) : MapInfo :=
  let mi1 := if mi.pos == noPos && wpos != noPos then { mi with pos := wpos } else mi
  if isDefinitelyTrue st rhs then { mi1 with trueCount := mi1.trueCount + 1 }
  else { mi1 with onlyTrue := false }

/-- `recordAssignment` from analyzer.go, as a state transformer on the
record keyed by `o` (the `mi == nil` guard is the `none` branch of the
caller's `infoFor`). -/
def recordAssignment (st : AState) (o : Object) (rhs : Expr) (wpos : Pos) : AState :=
  { st with results := st.results.map (fun mi => if mi.obj == o then updateRec st rhs wpos mi else mi) }

/-- `exprAt` from analyzer.go. -/
def exprAt (list : List Expr) (length index : Nat) : Option Expr :=
  if index < length then list[index]?
  else if length == 1 then list[0]?
  else none

/-- Indexed left fold, modelling `for i, x := range list`. -/
def foldIdx {α σ : Type _} (f : σ → Nat → α → σ) : σ → Nat → List α → σ
  | s, _, [] => s
  | s, i, a :: rest => foldIdx f (f s i a) (i + 1) rest

/-- One iteration of the loop in `handleAssign` (left-hand side at index
`i`): track a plain variable write, then record an indexed map write when
the token is `=` and the target resolves. -/
def assignPair (pkg : Package) (rhs : List Expr) (tok : Tok) (st : AState) (i : Nat) (lhs : Expr) : AState :=
  let rhsExpr := exprAt rhs rhs.length i
  let st1 :=
    match rhsExpr with
    | some r => trackVarAssignment st lhs r tok
    | none => st
  match lhs, rhsExpr with
  | .indexE x _ ipos, some r =>
    if tok == .assignT then
      match infoFor pkg st1 (mapObject x) with
      | (some o, st2) => recordAssignment st2 o r ipos
      | (none, st2) => st2
    else st1
  | _, _ => st1

/-- `handleAssign` from analyzer.go. -/
def handleAssign (pkg : Package) (st : AState) (lhs rhs : List Expr) (tok : Tok) : AState :=
  foldIdx (assignPair pkg rhs tok) st 0 lhs

/-- One iteration of the loop in `handleValueSpec` (name at index `i`). -/
def valueSpecPair (values : List Expr) (st : AState) (i : Nat) (nb : NameBind) : AState :=
  match exprAt values values.length i with
  | none => st
  | some r =>
    let obj :=
      match nb.defs with
      | some o => some o
      | none => nb.uses
    match obj with
    | none => st
    | some o => recordVarAssignment st o r

/-- `handleValueSpec` from analyzer.go. -/
def handleValueSpec (st : AState) (names : List NameBind) (values : List Expr) : AState :=
  if names.length == 0 then st
  else if values.length == 0 then st
  else foldIdx (valueSpecPair values) st 0 names

/-- Recording of one composite-literal element (`info.recordAssignment(a,
kv.Value, kv.Value.Pos())`; non key-value elements are skipped). -/
def recordElt (st : AState) (o : Object) (el : CompElt) : AState :=
  match el with
  | .kvElt v => recordAssignment st o v v.posOf
  | .plainElt _ => st

/-- `handleComposite` from analyzer.go, with the parent object already
resolved from the ancestor stack by the caller. -/
def handleCompositeAt (pkg : Package) (st : AState) (tv : Option TV) (elts : List CompElt) (parentObj : Option Object) : AState :=
  match tv with
  | none => st
  | some t =>
    match t.typ with
    | none => st
    | some ty =>
      match ty.underlying with
      | .tyMapT _ elem =>
        if isBool elem then
          match infoFor pkg st parentObj with
          | (none, st1) => st1
          | (some o, st1) => elts.foldl (fun s el => recordElt s o el) st1
        else st
      | _ => st

/-- `objectForComposite` from analyzer.go, for a composite literal that is
element `i` of the right-hand sides of an `AssignStmt` (node identity in
`p.Rhs` resolves to the index `i` of the visited element). -/
def objectForCompositeAssign (lhsList : List Expr) (i : Nat) : Option Object :=
  match exprAt lhsList lhsList.length i with
  | none => none
  | some l => objectOfAssignable l

/-- `objectForComposite` from analyzer.go, for a composite literal that is
element `i` of the values of a `ValueSpec`. -/
def objectForCompositeValue (names : List NameBind) (i : Nat) : Option Object :=
  match names[i]? with
  | none => none
  | some nb =>
    match nb.defs with
    | some o => some o
    | none => nb.uses

/-- Visit of the direct right-hand-side children of an `AssignStmt`:
composite literals there have the statement as stack parent. -/
def compositeScanAssign (pkg : Package) (lhs : List Expr) (st : AState) (i : Nat) (r : Expr) : AState :=
  match r with
  | .compLitE tv elts _ => handleCompositeAt pkg st tv elts (objectForCompositeAssign lhs i)
  | _ => st

/-- Visit of the direct value children of a `ValueSpec`. -/
def compositeScanValue (pkg : Package) (names : List NameBind) (st : AState) (i : Nat) (r : Expr) : AState :=
  match r with
  | .compLitE tv elts _ => handleCompositeAt pkg st tv elts (objectForCompositeValue names i)
  | _ => st

/-- Pre-order processing of one statement: the statement's own handler
first (`ast.Inspect` visits the parent before its children), then the
composite literals among its direct right-hand-side children. -/
def stepStmt (pkg : Package) (st : AState) : WStmt → AState
  | .assignS lhs rhs tok =>
    let st1 := handleAssign pkg st lhs rhs tok
    foldIdx (compositeScanAssign pkg lhs) st1 0 rhs
  | .valueS names values =>
    let st1 := handleValueSpec st names values
    foldIdx (compositeScanValue pkg names) st1 0 values

/-- The walk over one file's statement list. -/
def foldStmts (pkg : Package) (st : AState) : List WStmt → AState
  | [] => st
  | s :: rest => foldStmts pkg (stepStmt pkg st s) rest

/-- `inspectFile` from analyzer.go. -/
def inspectFile (pkg : Package) (st : AState) (file : List WStmt) : AState :=
  foldStmts pkg st file

/-- The fresh analyzer state built at the top of `Analyze`. -/
def initialState : AState :=
  { results := [], boolValues := [] }

/-- The loop `for _, file := range files`. -/
def foldFiles (pkg : Package) (st : AState) : List (List WStmt) → AState
  | [] => st
  | f :: rest => foldFiles pkg (inspectFile pkg st f) rest

/-- The diagnostic message `fmt.Sprintf` in `Analyze` builds for a record
with key type rendering `key`. -/
def mapBoolMsg (key : String) : String :=
  "map[" ++ key ++ "]bool only stores true values; consider map[" ++ key ++ "]struct\x7b\x7d"

/-- The body of the aggregation loop in `Analyze`: the diagnostic emitted
for one registry record, if any. -/
def emitDiag (mi : MapInfo) : Option Diagnostic :=
  if mi.trueCount == 0 || !mi.onlyTrue then none
  else
    let pos := if mi.pos == noPos then mi.obj.pos else mi.pos
    if pos == noPos then none
    else some { pos := pos, message := mapBoolMsg mi.keyType }

/-- `Analyze` from analyzer.go (for a non-nil package and binding table,
which the model presumes; the `len(files) == 0` guard is kept). -/
def Analyze (pkg : Package) (files : List (List WStmt)) : List Diagnostic :=
  if files.isEmpty then []
  else
    let st := foldFiles pkg initialState files
    st.results.filterMap emitDiag

/-- The ascending source-offset order on diagnostics used by the CLI
driver (`cmd/boolsetlint/main.go`). -/
def diagLE (a b : Diagnostic) : Prop := a.pos ≤ b.pos

instance : DecidableRel diagLE := fun a b => Nat.decLe a.pos b.pos

instance : IsTotal Diagnostic diagLE := ⟨fun a b => Nat.le_total a.pos b.pos⟩

instance : IsTrans Diagnostic diagLE := ⟨fun _ _ _ h1 h2 => Nat.le_trans h1 h2⟩

/-- The sort the CLI driver applies to `Analyze`'s output before printing
(`sort.Slice` by ascending `Offset`), modelled by a canonical sorting
function for that order. -/
def sortDiags (l : List Diagnostic) : List Diagnostic :=
  List.insertionSort diagLE l

/-- The diagnostics of the output that stem from the registry records of
binding `o`. -/
def diagsOf (rs : List MapInfo) (o : Object) : List Diagnostic :=
  (rs.filter (fun mi => mi.obj == o)).filterMap emitDiag

/-! Concrete fixtures: a package, a handful of objects and statement
builders used by the example programs that the theorems below evaluate.
Scope identities: `10` is the package scope of `pkgP`, `11` a function
body scope inside it. -/

/-- The analyzed package. -/
def pkgP : Package := { id := 1, name := "p", scopeId := 10 }

/-- The type `map[string]bool`. -/
def tyMapSB : Ty := .tyMapT (.plainK "string") .tyBool

/-- The literal `true` (an identifier the front end constant-folds). -/
def litTrue (p : Pos) : Expr :=
  .identE "true" none none (some { typ := some .tyBool, val := some (.boolC true) }) p

/-- The literal `false`. -/
def litFalse (p : Pos) : Expr :=
  .identE "false" none none (some { typ := some .tyBool, val := some (.boolC false) }) p

/-- A use of a declared variable (resolved through `info.Uses`, no
constant value). -/
def useVar (n : String) (o : Object) (p : Pos) : Expr :=
  .identE n (some o) none (some { typ := some o.typ, val := none }) p

/-- A defining occurrence of a variable (resolved through `info.Defs`). -/
def defVar (n : String) (o : Object) (p : Pos) : Expr :=
  .identE n none (some o) (some { typ := some o.typ, val := none }) p

/-- A `make(...)` call of type `t` (a call expression: not constant-folded,
not an identifier). -/
def makeCall (t : Ty) (p : Pos) : Expr :=
  .otherE (some { typ := some t, val := none }) p

/-- The index expression `m[...]` of a map write at position `wp`. -/
def idxOf (n : String) (m : Object) (wp : Pos) : Expr :=
  .indexE (useVar n m wp) (some { typ := some .tyBool, val := none }) wp

/-- The statement `m[...] = v` at position `wp`. -/
def mapWrite (n : String) (m : Object) (wp : Pos) (v : Expr) : WStmt :=
  .assignS [idxOf n m wp] [v] .assignT

/-- The statement `x := rhs`. -/
def defineStmt (n : String) (o : Object) (dp : Pos) (rhs : Expr) : WStmt :=
  .assignS [defVar n o dp] [rhs] .defineT

/-- The statement `x = rhs` (plain assignment to a variable). -/
def assignStmt (n : String) (o : Object) (ap : Pos) (rhs : Expr) : WStmt :=
  .assignS [useVar n o ap] [rhs] .assignT

/-- A local `map[string]bool` variable `set` declared at position 30 in
the function scope. -/
def setL : Object :=
  { id := 100, kind := .varK, constVal := none, isField := false, parent := some 11, pkg := some pkgP, pos := 30, typ := tyMapSB }

/-- A local boolean variable `flag` declared at position 20. -/
def flagL : Object :=
  { id := 101, kind := .varK, constVal := none, isField := false, parent := some 11, pkg := some pkgP, pos := 20, typ := .tyBool }

/-- A second local boolean variable `alias` declared at position 25. -/
def aliasL : Object :=
  { id := 102, kind := .varK, constVal := none, isField := false, parent := some 11, pkg := some pkgP, pos := 25, typ := .tyBool }

/-- A package-scope boolean variable `alwaysTrue` (its parent scope is the
package scope of `pkgP`). -/
def globalG : Object :=
  { id := 103, kind := .varK, constVal := none, isField := false, parent := some 10, pkg := some pkgP, pos := 5, typ := .tyBool }

/-- A boolean function parameter `p`: as `go/types` resolves parameters,
it lives in the function scope (not the package scope) and carries the
valid source position of its name in the signature. -/
def paramP : Object :=
  { id := 104, kind := .varK, constVal := none, isField := false, parent := some 11, pkg := some pkgP, pos := 15, typ := .tyBool }

/-- A local boolean variable also named `alwaysTrue`, shadowing nothing,
for the scope-isolation contrast. -/
def locAT : Object :=
  { id := 105, kind := .varK, constVal := none, isField := false, parent := some 11, pkg := some pkgP, pos := 20, typ := .tyBool }

/-- A local `map[string]bool` variable declared at position 5, later
written at position 20. -/
def setC8 : Object :=
  { id := 110, kind := .varK, constVal := none, isField := false, parent := some 11, pkg := some pkgP, pos := 5, typ := tyMapSB }

/-- A package-level `map[string]bool` variable declared late in the file
(position 100) but written first in walk order. -/
def mBObj : Object :=
  { id := 120, kind := .varK, constVal := none, isField := false, parent := some 10, pkg := some pkgP, pos := 100, typ := tyMapSB }

/-- A package-level `map[string]bool` variable declared at position 50. -/
def mAObj : Object :=
  { id := 121, kind := .varK, constVal := none, isField := false, parent := some 10, pkg := some pkgP, pos := 50, typ := tyMapSB }

/-- The declaration `set := map[string]bool{"a": true}` (composite-literal
form, one literal-true entry). -/
def declC1 : WStmt :=
  .assignS [defVar "set" setL 30] [.compLitE (some { typ := some tyMapSB, val := none }) [.kvElt (litTrue 34)] 33] .defineT

/-- The single-form write `set["k"] = true`. -/
def writeC1 : WStmt := mapWrite "set" setL 40 (litTrue 45)

/-- The tuple-form write `set["a"], set["b"] = true, true`. -/
def tupleC1 : WStmt :=
  .assignS [idxOf "set" setL 50, idxOf "set" setL 54] [litTrue 52, litTrue 56] .assignT

/-- A family of programs whose map binding receives only literal-true
writes: a composite-literal entry, `n` single-form writes (as a loop body
would contribute them), and a tuple write. -/
def progC1 (n : Nat) : List WStmt :=
  declC1 :: (List.replicate n writeC1 ++ [tupleC1])

/-- The registry record of `setL` in `progC1` after `k` recorded
literal-true writes. -/
def recC1 (k : Nat) : MapInfo :=
  { obj := setL, onlyTrue := true, trueCount := k, pos := 30, keyType := "string" }

/-- The pointer-indirection program: `set := make(map[string]bool);
setPtr := &set; (*setPtr)["a"] = true`.  The star expression under the
parentheses is not an identifier or selector, so `mapObject` cannot
resolve it. -/
def progC3 : List WStmt :=
  [ defineStmt "set" setL 30 (makeCall tyMapSB 33),
    .assignS [.indexE (.parenE (.otherE (some { typ := some tyMapSB, val := none }) 41) (some { typ := some tyMapSB, val := none }) 40) (some { typ := some .tyBool, val := none }) 40] [litTrue 48] .assignT ]

/-- The scope-isolation program with a package-scope `alwaysTrue`:
`var alwaysTrue = true` at package scope, then `set := make(...);
set["a"] = alwaysTrue` in a function. -/
def progC5G : List WStmt :=
  [ .valueS [{ name := "alwaysTrue", defs := some globalG, uses := none }] [litTrue 6],
    defineStmt "set" setL 30 (makeCall tyMapSB 33),
    mapWrite "set" setL 40 (useVar "alwaysTrue" globalG 45) ]

/-- The same program shape with a local `alwaysTrue`. -/
def progC5L : List WStmt :=
  [ defineStmt "alwaysTrue" locAT 20 (litTrue 22),
    defineStmt "set" setL 30 (makeCall tyMapSB 33),
    mapWrite "set" setL 40 (useVar "alwaysTrue" locAT 45) ]

/-- The parameter program `func f(p bool) { p = true;
set := make(map[string]bool); set["a"] = p }`. -/
def progC6 : List WStmt :=
  [ assignStmt "p" paramP 16 (litTrue 18),
    defineStmt "set" setL 30 (makeCall tyMapSB 33),
    mapWrite "set" setL 40 (useVar "p" paramP 45) ]

/-- Aliasing program: `flag := true; alias := flag; set := make(...);
set["a"] = alias`. -/
def progC7A : List WStmt :=
  [ defineStmt "flag" flagL 20 (litTrue 22),
    defineStmt "alias" aliasL 25 (useVar "flag" flagL 27),
    defineStmt "set" setL 30 (makeCall tyMapSB 33),
    mapWrite "set" setL 40 (useVar "alias" aliasL 45) ]

/-- Aliasing program where `flag` is reassigned a non-provable value (a
call result) before the copy and the map write. -/
def progC7B : List WStmt :=
  [ defineStmt "flag" flagL 20 (litTrue 22),
    assignStmt "flag" flagL 23 (makeCall .tyBool 24),
    defineStmt "alias" aliasL 25 (useVar "flag" flagL 27),
    defineStmt "set" setL 30 (makeCall tyMapSB 33),
    mapWrite "set" setL 40 (useVar "alias" aliasL 45) ]

/-- Anchoring program: `set` declared at position 5, first (and only)
write `set["a"] = true` at position 20. -/
def progC8 : List WStmt :=
  [ defineStmt "set" setC8 5 (makeCall tyMapSB 8),
    mapWrite "set" setC8 20 (litTrue 25) ]

/-- Ordering program: the map declared at position 100 is written first
(inside a function early in the file), the map declared at position 50 is
initialized by a later composite literal, so the registry's insertion
order lists the larger offset first. -/
def progC9 : List WStmt :=
  [ mapWrite "mB" mBObj 10 (litTrue 15),
    .valueS [{ name := "mA", defs := some mAObj, uses := none }] [.compLitE (some { typ := some tyMapSB, val := none }) [.kvElt (litTrue 55)] 52] ]

/-- The position `Analyze` anchors a record's diagnostic at: the record
position, or the declaration position of the object when the record
position is unset. -/
def effPos (mi : MapInfo) : Pos :=
  if mi.pos == noPos then mi.obj.pos else mi.pos

/-- The binding `o` has a registry record and every record of `o` is
disproved (its `onlyTrue` flag is cleared). -/
def DisprovedAll (o : Object) (rs : List MapInfo) : Prop :=
  (∃ mi ∈ rs, mi.obj = o) ∧ ∀ mi ∈ rs, mi.obj = o → mi.onlyTrue = false

/-- The parenthesized star expression `(*setPtr)` of the
pointer-indirection write in `progC3`. -/
def ptrX : Expr :=
  .parenE (.otherE (some { typ := some tyMapSB, val := none }) 41) (some { typ := some tyMapSB, val := none }) 40

/-- A state in which `setL` has been disproved: its map was declared and
then written a literal `false`. -/
def stC2 : AState :=
  foldStmts pkgP initialState
    [defineStmt "set" setL 30 (makeCall tyMapSB 33), mapWrite "set" setL 40 (litFalse 45)]

/-- A state in which `flagL` is latched not-provable: assigned `true`,
then reassigned a call result. -/
def stC4 : AState :=
  foldStmts pkgP initialState
    [defineStmt "flag" flagL 20 (litTrue 22), assignStmt "flag" flagL 24 (makeCall .tyBool 26)]

/-- An eligible record whose own position is unset but whose binding has a
valid declaration position. -/
def miNoPos : MapInfo :=
  { obj := setL, onlyTrue := true, trueCount := 1, pos := noPos, keyType := "string" }

/-- A map binding with an invalid declaration position. -/
def objNoPos : Object :=
  { id := 140, kind := .varK, constVal := none, isField := false, parent := some 11, pkg := some pkgP, pos := noPos, typ := tyMapSB }

/-- An eligible record with no valid position at all. -/
def miNoPos2 : MapInfo :=
  { obj := objNoPos, onlyTrue := true, trueCount := 1, pos := noPos, keyType := "string" }

/-! Helper lemmas about the state primitives. -/

theorem lookupTruth_cons (p : Object × truthState) (rest : List (Object × truthState)) (o : Object) :
    lookupTruth (p :: rest) o = if p.1 = o then p.2 else lookupTruth rest o := by
  by_cases h : p.1 = o
  · simp [lookupTruth, List.find?, h]
  · have hb : (p.1 == o) = false := beq_false_of_ne h
    simp [lookupTruth, List.find?, hb, h]

theorem lookupTruth_updTruth_self (bv : List (Object × truthState)) (o : Object) (ts : truthState) :
    lookupTruth (updTruth bv o ts) o = ts := by
  induction bv with
  | nil => simp [updTruth, lookupTruth, List.find?]
  | cons p rest ih =>
    by_cases h : p.1 = o
    · have hb : (p.1 == o) = true := beq_iff_eq.mpr h
      simp [updTruth, hb, lookupTruth_cons]
    · have hb : (p.1 == o) = false := beq_false_of_ne h
      simp [updTruth, hb, lookupTruth_cons, h, ih]

theorem lookupTruth_updTruth_ne (bv : List (Object × truthState)) (o o2 : Object) (ts : truthState)
    (h : o2 ≠ o) : lookupTruth (updTruth bv o2 ts) o = lookupTruth bv o := by
  induction bv with
  | nil => simp [updTruth, lookupTruth, List.find?, beq_false_of_ne h]
  | cons p rest ih =>
    by_cases hp : p.1 = o2
    · have hb : (p.1 == o2) = true := beq_iff_eq.mpr hp
      have hpo : p.1 ≠ o := by rw [hp]; exact h
      simp [updTruth, hb, lookupTruth_cons, h, hpo]
    · have hb : (p.1 == o2) = false := beq_false_of_ne hp
      simp [updTruth, hb, lookupTruth_cons, ih]

theorem mem_updTruth {bv : List (Object × truthState)} {o : Object} {ts : truthState}
    {q : Object × truthState} (h : q ∈ updTruth bv o ts) : q ∈ bv ∨ q = (o, ts) := by
  induction bv with
  | nil =>
    exact Or.inr (by simpa [updTruth] using h)
  | cons p rest ih =>
    by_cases hp : p.1 = o
    · have hb : (p.1 == o) = true := beq_iff_eq.mpr hp
      rw [show updTruth (p :: rest) o ts = (o, ts) :: rest by simp [updTruth, hb]] at h
      exact (List.mem_cons.mp h).elim (fun h1 => Or.inr h1)
        (fun h1 => Or.inl (List.mem_cons_of_mem _ h1))
    · have hb : (p.1 == o) = false := beq_false_of_ne hp
      rw [show updTruth (p :: rest) o ts = p :: updTruth rest o ts by simp [updTruth, hb]] at h
      exact (List.mem_cons.mp h).elim (fun h1 => Or.inl (by simp [h1]))
        (fun h1 => (ih h1).elim (fun h2 => Or.inl (List.mem_cons_of_mem _ h2)) (fun h2 => Or.inr h2))

theorem recordVarAssignment_results (st : AState) (o : Object) (rhs : Expr) :
    (recordVarAssignment st o rhs).results = st.results := by
  unfold recordVarAssignment
  repeat' split
  all_goals rfl

theorem matchObjAux (st : AState) (r : Expr) (ob : Option Object) :
    (match ob with
      | none => st
      | some o => recordVarAssignment st o r).results = st.results := by
  cases ob
  · rfl
  · exact recordVarAssignment_results ..

theorem valueSpecPair_results (vs : List Expr) (s : AState) (i : Nat) (a : NameBind) :
    (valueSpecPair vs s i a).results = s.results := by
  unfold valueSpecPair
  split
  · rfl
  · exact matchObjAux ..

theorem trackVarAssignment_results (st : AState) (l r : Expr) (tok : Tok) :
    (trackVarAssignment st l r tok).results = st.results := by
  unfold trackVarAssignment
  cases l
  case identE n u d tv p =>
    dsimp only
    split
    · rfl
    · exact matchObjAux ..
  all_goals rfl

theorem foldIdx_preserve {α σ : Type _} (P : σ → Prop) (f : σ → Nat → α → σ)
    (h : ∀ s i a, P s → P (f s i a)) :
    ∀ (l : List α) (s : σ) (i : Nat), P s → P (foldIdx f s i l) := by
  intro l
  induction l with
  | nil => intro s i hs; exact hs
  | cons a rest ih => intro s i hs; exact ih (f s i a) (i + 1) (h s i a hs)

theorem foldl_preserve {α σ : Type _} (P : σ → Prop) (f : σ → α → σ)
    (h : ∀ s a, P s → P (f s a)) :
    ∀ (l : List α) (s : σ), P s → P (l.foldl f s) := by
  intro l
  induction l with
  | nil => intro s hs; exact hs
  | cons a rest ih => intro s hs; exact ih (f s a) (h s a hs)

theorem handleValueSpec_results (st : AState) (ns : List NameBind) (vs : List Expr) :
    (handleValueSpec st ns vs).results = st.results := by
  unfold handleValueSpec
  split
  · rfl
  · split
    · rfl
    · exact foldIdx_preserve (fun s => s.results = st.results) (valueSpecPair vs)
        (fun s i a hs => (valueSpecPair_results vs s i a).trans hs) ns st 0 rfl

theorem recordAssignment_boolValues (st : AState) (o : Object) (rhs : Expr) (wpos : Pos) :
    (recordAssignment st o rhs wpos).boolValues = st.boolValues := rfl

theorem infoFor_boolValues (pkg : Package) (st : AState) (ob : Option Object) :
    ((infoFor pkg st ob).2).boolValues = st.boolValues := by
  unfold infoFor
  cases ob
  · rfl
  case some o =>
    dsimp only
    repeat' split
    all_goals rfl

theorem updateRec_obj (st : AState) (rhs : Expr) (wpos : Pos) (mi : MapInfo) :
    (updateRec st rhs wpos mi).obj = mi.obj := by
  unfold updateRec
  repeat' split
  all_goals rfl

theorem updateRec_keyType (st : AState) (rhs : Expr) (wpos : Pos) (mi : MapInfo) :
    (updateRec st rhs wpos mi).keyType = mi.keyType := by
  unfold updateRec
  repeat' split
  all_goals rfl

theorem updateRec_onlyTrue_false (st : AState) (rhs : Expr) (wpos : Pos) (mi : MapInfo)
    (h : mi.onlyTrue = false) : (updateRec st rhs wpos mi).onlyTrue = false := by
  unfold updateRec
  repeat' split
  all_goals simp [h]

theorem updateRec_pos (st : AState) (rhs : Expr) (wpos : Pos) (mi : MapInfo) :
    (updateRec st rhs wpos mi).pos = if mi.pos = noPos ∧ wpos ≠ noPos then wpos else mi.pos := by
  unfold updateRec
  by_cases h1 : mi.pos = noPos
  · by_cases h2 : wpos = noPos
    · have hb : (mi.pos == noPos && wpos != noPos) = false := by
        simp [h1, h2]
      simp [hb, h1, h2]
      split
      all_goals rfl
    · have hb : (mi.pos == noPos && wpos != noPos) = true := by
        simp [h1, bne_iff_ne, h2]
      simp [hb, h1, h2]
      split
      all_goals rfl
  · have hb : (mi.pos == noPos && wpos != noPos) = false := by
      simp [beq_false_of_ne h1]
    simp [hb, h1]
    split
    all_goals rfl

/-! A state predicate preserved by the three primitive state updates
(`recordVarAssignment`, `infoFor`, `recordAssignment`) is preserved by the
whole walk. -/

theorem matchObjAuxP (P : AState → Prop)
    (h1 : ∀ st o rhs, P st → P (recordVarAssignment st o rhs))
    (st : AState) (r : Expr) (ob : Option Object) (hP : P st) :
    P (match ob with
      | none => st
      | some o => recordVarAssignment st o r) := by
  cases ob
  · exact hP
  · exact h1 st _ r hP

theorem trackVarAssignment_preserve (P : AState → Prop)
    (h1 : ∀ st o rhs, P st → P (recordVarAssignment st o rhs))
    (st : AState) (l r : Expr) (tok : Tok) (hP : P st) :
    P (trackVarAssignment st l r tok) := by
  unfold trackVarAssignment
  cases l
  case identE n u d tv p =>
    dsimp only
    split
    · exact hP
    · exact matchObjAuxP P h1 st r _ hP
  all_goals exact hP

theorem infoForMatchAuxP (P : AState → Prop)
    (h2 : ∀ pkg st ob, P st → P ((infoFor pkg st ob).2))
    (h3 : ∀ st o rhs wpos, P st → P (recordAssignment st o rhs wpos))
    (pkg : Package) (st : AState) (ob : Option Object) (r : Expr) (ipos : Pos) (hP : P st) :
    P (match infoFor pkg st ob with
      | (some o, st2) => recordAssignment st2 o r ipos
      | (none, st2) => st2) := by
  have hx := h2 pkg st ob hP
  cases hif : infoFor pkg st ob with
  | mk oOpt st2 =>
    rw [hif] at hx
    cases oOpt
    · exact hx
    · exact h3 st2 _ r ipos hx

theorem assignPair_preserve (P : AState → Prop)
    (h1 : ∀ st o rhs, P st → P (recordVarAssignment st o rhs))
    (h2 : ∀ pkg st ob, P st → P ((infoFor pkg st ob).2))
    (h3 : ∀ st o rhs wpos, P st → P (recordAssignment st o rhs wpos))
    (pkg : Package) (rhs : List Expr) (tok : Tok) (st : AState) (i : Nat) (lhs : Expr)
    (hP : P st) : P (assignPair pkg rhs tok st i lhs) := by
  unfold assignPair
  cases he : exprAt rhs rhs.length i with
  | none =>
    cases lhs <;> exact hP
  | some r =>
    have hst1 : P (trackVarAssignment st lhs r tok) :=
      trackVarAssignment_preserve P h1 st lhs r tok hP
    cases lhs <;> dsimp only
    case indexE x tv ipos =>
      split
      · exact infoForMatchAuxP P h2 h3 pkg _ (mapObject x) r ipos hst1
      · exact hst1
    all_goals exact hst1

theorem recordElt_preserve (P : AState → Prop)
    (h3 : ∀ st o rhs wpos, P st → P (recordAssignment st o rhs wpos))
    (st : AState) (o : Object) (el : CompElt) (hP : P st) :
    P (recordElt st o el) := by
  cases el
  case kvElt v => exact h3 st o v v.posOf hP
  case plainElt v => exact hP

theorem compInfoAuxP (P : AState → Prop)
    (h2 : ∀ pkg st ob, P st → P ((infoFor pkg st ob).2))
    (h3 : ∀ st o rhs wpos, P st → P (recordAssignment st o rhs wpos))
    (pkg : Package) (st : AState) (ob : Option Object) (elts : List CompElt) (hP : P st) :
    P (match infoFor pkg st ob with
      | (none, st1) => st1
      | (some o, st1) => elts.foldl (fun s el => recordElt s o el) st1) := by
  have hx := h2 pkg st ob hP
  cases hif : infoFor pkg st ob with
  | mk oOpt st1 =>
    rw [hif] at hx
    cases oOpt
    · exact hx
    case some o =>
      exact foldl_preserve P _ (fun s el hs => recordElt_preserve P h3 s o el hs) elts st1 hx

theorem handleCompositeAt_preserve (P : AState → Prop)
    (h2 : ∀ pkg st ob, P st → P ((infoFor pkg st ob).2))
    (h3 : ∀ st o rhs wpos, P st → P (recordAssignment st o rhs wpos))
    (pkg : Package) (st : AState) (tv : Option TV) (elts : List CompElt)
    (parentObj : Option Object) (hP : P st) :
    P (handleCompositeAt pkg st tv elts parentObj) := by
  unfold handleCompositeAt
  split
  · exact hP
  · split
    · exact hP
    · split
      · split
        · exact compInfoAuxP P h2 h3 pkg st parentObj elts hP
        · exact hP
      · exact hP

theorem compositeScanAssign_preserve (P : AState → Prop)
    (h2 : ∀ pkg st ob, P st → P ((infoFor pkg st ob).2))
    (h3 : ∀ st o rhs wpos, P st → P (recordAssignment st o rhs wpos))
    (pkg : Package) (lhs : List Expr) (st : AState) (i : Nat) (r : Expr) (hP : P st) :
    P (compositeScanAssign pkg lhs st i r) := by
  cases r <;> dsimp only [compositeScanAssign]
  case compLitE tv elts p =>
    exact handleCompositeAt_preserve P h2 h3 pkg st tv elts _ hP
  all_goals exact hP

theorem compositeScanValue_preserve (P : AState → Prop)
    (h2 : ∀ pkg st ob, P st → P ((infoFor pkg st ob).2))
    (h3 : ∀ st o rhs wpos, P st → P (recordAssignment st o rhs wpos))
    (pkg : Package) (names : List NameBind) (st : AState) (i : Nat) (r : Expr) (hP : P st) :
    P (compositeScanValue pkg names st i r) := by
  cases r <;> dsimp only [compositeScanValue]
  case compLitE tv elts p =>
    exact handleCompositeAt_preserve P h2 h3 pkg st tv elts _ hP
  all_goals exact hP

theorem valueSpecPair_preserve (P : AState → Prop)
    (h1 : ∀ st o rhs, P st → P (recordVarAssignment st o rhs))
    (vs : List Expr) (st : AState) (i : Nat) (a : NameBind) (hP : P st) :
    P (valueSpecPair vs st i a) := by
  unfold valueSpecPair
  split
  · exact hP
  · exact matchObjAuxP P h1 st _ _ hP

theorem handleValueSpec_preserve (P : AState → Prop)
    (h1 : ∀ st o rhs, P st → P (recordVarAssignment st o rhs))
    (st : AState) (ns : List NameBind) (vs : List Expr) (hP : P st) :
    P (handleValueSpec st ns vs) := by
  unfold handleValueSpec
  split
  · exact hP
  · split
    · exact hP
    · exact foldIdx_preserve P _ (fun s i a hs => valueSpecPair_preserve P h1 vs s i a hs) ns st 0 hP

theorem stepStmt_preserve (P : AState → Prop)
    (h1 : ∀ st o rhs, P st → P (recordVarAssignment st o rhs))
    (h2 : ∀ pkg st ob, P st → P ((infoFor pkg st ob).2))
    (h3 : ∀ st o rhs wpos, P st → P (recordAssignment st o rhs wpos))
    (pkg : Package) (st : AState) (w : WStmt) (hP : P st) :
    P (stepStmt pkg st w) := by
  cases w with
  | assignS lhs rhs tok =>
    dsimp only [stepStmt]
    exact foldIdx_preserve P _
      (fun s i r hs => compositeScanAssign_preserve P h2 h3 pkg lhs s i r hs) rhs _ 0
      (foldIdx_preserve P _
        (fun s i l hs => assignPair_preserve P h1 h2 h3 pkg rhs tok s i l hs) lhs st 0 hP)
  | valueS names values =>
    dsimp only [stepStmt]
    exact foldIdx_preserve P _
      (fun s i r hs => compositeScanValue_preserve P h2 h3 pkg names s i r hs) values _ 0
      (handleValueSpec_preserve P h1 st names values hP)

theorem foldStmts_preserve (P : AState → Prop)
    (h1 : ∀ st o rhs, P st → P (recordVarAssignment st o rhs))
    (h2 : ∀ pkg st ob, P st → P ((infoFor pkg st ob).2))
    (h3 : ∀ st o rhs wpos, P st → P (recordAssignment st o rhs wpos))
    (pkg : Package) : ∀ (stmts : List WStmt) (st : AState), P st → P (foldStmts pkg st stmts) := by
  intro stmts
  induction stmts with
  | nil => intro st hP; exact hP
  | cons w rest ih =>
    intro st hP
    exact ih (stepStmt pkg st w) (stepStmt_preserve P h1 h2 h3 pkg st w hP)

theorem foldFiles_preserve (P : AState → Prop)
    (h1 : ∀ st o rhs, P st → P (recordVarAssignment st o rhs))
    (h2 : ∀ pkg st ob, P st → P ((infoFor pkg st ob).2))
    (h3 : ∀ st o rhs wpos, P st → P (recordAssignment st o rhs wpos))
    (pkg : Package) : ∀ (files : List (List WStmt)) (st : AState), P st → P (foldFiles pkg st files) := by
  intro files
  induction files with
  | nil => intro st hP; exact hP
  | cons f rest ih =>
    intro st hP
    exact ih (inspectFile pkg st f) (foldStmts_preserve P h1 h2 h3 pkg f st hP)

/-! Primitive preservation lemmas for the three walk invariants. -/

theorem disprovedAll_recordVarAssignment (o : Object) (st : AState) (o2 : Object) (rhs : Expr)
    (h : DisprovedAll o st.results) : DisprovedAll o (recordVarAssignment st o2 rhs).results := by
  rw [recordVarAssignment_results]
  exact h

theorem disprovedAll_infoFor (o : Object) (pkg : Package) (st : AState) (ob : Option Object)
    (h : DisprovedAll o st.results) : DisprovedAll o ((infoFor pkg st ob).2).results := by
  unfold infoFor
  cases ob
  · exact h
  case some o2 =>
    dsimp only
    split
    · exact h
    · split
      · split
        · split
          · exact h
          case h_2 heq =>
            dsimp only
            by_cases ho : o2 = o
            · exfalso
              obtain ⟨mi, hmem, hobj⟩ := h.1
              unfold findRec at heq
              have hnone := List.find?_eq_none.mp heq mi hmem
              exact hnone (beq_iff_eq.mpr (by rw [hobj, ho]))
            · constructor
              · obtain ⟨mi, hmem, hobj⟩ := h.1
                exact ⟨mi, List.mem_append_left _ hmem, hobj⟩
              · intro mi hmi hobj
                rcases List.mem_append.mp hmi with hm | hm
                · exact h.2 mi hm hobj
                · exfalso
                  have hval : mi.obj = o2 := by
                    have : mi ∈ [({ obj := o2, onlyTrue := true, trueCount := 0, pos := o2.pos, keyType := typeStringK (makeQualifier pkg) _ } : MapInfo)] := hm
                    simp at this
                    rw [this]
                  exact ho (hval ▸ hobj)
        · exact h
      · exact h

theorem disprovedAll_recordAssignment (o : Object) (st : AState) (o2 : Object) (rhs : Expr)
    (wpos : Pos) (h : DisprovedAll o st.results) :
    DisprovedAll o (recordAssignment st o2 rhs wpos).results := by
  unfold recordAssignment
  dsimp only
  constructor
  · obtain ⟨mi, hmem, hobj⟩ := h.1
    refine ⟨if mi.obj == o2 then updateRec st rhs wpos mi else mi, List.mem_map_of_mem _ hmem, ?_⟩
    split
    · rw [updateRec_obj]
      exact hobj
    · exact hobj
  · intro x hx hobjx
    obtain ⟨mi, hmem, hEq⟩ := List.mem_map.mp hx
    by_cases hm : (mi.obj == o2) = true
    · rw [if_pos hm] at hEq
      rw [← hEq] at hobjx ⊢
      rw [updateRec_obj] at hobjx
      exact updateRec_onlyTrue_false st rhs wpos mi (h.2 mi hmem hobjx)
    · rw [if_neg hm] at hEq
      rw [← hEq] at hobjx ⊢
      exact h.2 mi hmem hobjx

theorem notAlways_recordVarAssignment (o : Object) (st : AState) (o2 : Object) (rhs : Expr)
    (h : lookupTruth st.boolValues o = .truthNotAlwaysTrue) :
    lookupTruth (recordVarAssignment st o2 rhs).boolValues o = .truthNotAlwaysTrue := by
  unfold recordVarAssignment
  split
  · exact h
  · split
    · exact h
    · split
      · exact h
      · split
        · split
          case isTrue hunk =>
            by_cases ho : o2 = o
            · exfalso
              rw [ho] at hunk
              rw [h] at hunk
              exact absurd hunk (by decide)
            · dsimp only
              rw [lookupTruth_updTruth_ne st.boolValues o o2 _ ho]
              exact h
          · exact h
        · dsimp only
          by_cases ho : o2 = o
          · rw [ho, lookupTruth_updTruth_self]
          · rw [lookupTruth_updTruth_ne st.boolValues o o2 _ ho]
            exact h

theorem notAlways_infoFor (o : Object) (pkg : Package) (st : AState) (ob : Option Object)
    (h : lookupTruth st.boolValues o = .truthNotAlwaysTrue) :
    lookupTruth ((infoFor pkg st ob).2).boolValues o = .truthNotAlwaysTrue := by
  rw [infoFor_boolValues]
  exact h

theorem notAlways_recordAssignment (o : Object) (st : AState) (o2 : Object) (rhs : Expr)
    (wpos : Pos) (h : lookupTruth st.boolValues o = .truthNotAlwaysTrue) :
    lookupTruth (recordAssignment st o2 rhs wpos).boolValues o = .truthNotAlwaysTrue := by
  rw [recordAssignment_boolValues]
  exact h

theorem allLocal_recordVarAssignment (st : AState) (o2 : Object) (rhs : Expr)
    (h : ∀ p ∈ st.boolValues, isLocalVar p.1 = true) :
    ∀ p ∈ (recordVarAssignment st o2 rhs).boolValues, isLocalVar p.1 = true := by
  unfold recordVarAssignment
  split
  · exact h
  · split
    · exact h
    · split
      · exact h
      case isFalse hloc =>
        have hloc2 : isLocalVar o2 = true := by
          simpa using hloc
        split
        · split
          · dsimp only
            intro p hp
            rcases mem_updTruth hp with hm | hm
            · exact h p hm
            · rw [hm]
              exact hloc2
          · exact h
        · dsimp only
          intro p hp
          rcases mem_updTruth hp with hm | hm
          · exact h p hm
          · rw [hm]
            exact hloc2

theorem allLocal_infoFor (pkg : Package) (st : AState) (ob : Option Object)
    (h : ∀ p ∈ st.boolValues, isLocalVar p.1 = true) :
    ∀ p ∈ ((infoFor pkg st ob).2).boolValues, isLocalVar p.1 = true := by
  rw [infoFor_boolValues]
  exact h

theorem allLocal_recordAssignment (st : AState) (o2 : Object) (rhs : Expr) (wpos : Pos)
    (h : ∀ p ∈ st.boolValues, isLocalVar p.1 = true) :
    ∀ p ∈ (recordAssignment st o2 rhs wpos).boolValues, isLocalVar p.1 = true := by
  rw [recordAssignment_boolValues]
  exact h

theorem lookupTruth_unknown_of_notLocal (bv : List (Object × truthState)) (g : Object)
    (hall : ∀ p ∈ bv, isLocalVar p.1 = true) (hg : isLocalVar g = false) :
    lookupTruth bv g = .truthUnknown := by
  unfold lookupTruth
  cases hf : bv.find? (fun p => p.1 == g)
  · rfl
  case some p =>
    exfalso
    have hmem := List.mem_of_find?_eq_some hf
    have hpred0 : (p.1 == g) = true := by
      have := List.find?_some hf
      simpa using this
    have hpred : p.1 = g := beq_iff_eq.mp hpred0
    have hl := hall p hmem
    rw [hpred, hg] at hl
    exact absurd hl (by decide)

/-! Lemmas about the aggregation loop body. -/

theorem emitDiag_none_of_notOnlyTrue (mi : MapInfo) (h : mi.onlyTrue = false) :
    emitDiag mi = none := by
  unfold emitDiag
  rw [h]
  simp

theorem emitDiag_some (mi : MapInfo) (d : Diagnostic) (h : emitDiag mi = some d) :
    d = { pos := effPos mi, message := mapBoolMsg mi.keyType } ∧ effPos mi ≠ noPos ∧
      0 < mi.trueCount ∧ mi.onlyTrue = true := by
  unfold emitDiag at h
  split at h
  · exact absurd h (by simp)
  case isFalse hc =>
    rw [Bool.or_eq_true, not_or] at hc
    obtain ⟨hc1, hc2⟩ := hc
    have hcount : 0 < mi.trueCount := Nat.pos_of_ne_zero (by simpa using hc1)
    have honly : mi.onlyTrue = true := by simpa using hc2
    have h2 : (if (effPos mi == noPos) = true then none
        else some ({ pos := effPos mi, message := mapBoolMsg mi.keyType } : Diagnostic)) = some d := h
    split at h2
    · exact absurd h2 (by simp)
    case isFalse hp =>
      refine ⟨(Option.some.inj h2).symm, ?_, hcount, honly⟩
      intro hnp
      exact hp (by rw [hnp]; simp)

theorem emitDiag_isSome_iff (mi : MapInfo) (hpos : effPos mi ≠ noPos) :
    (emitDiag mi).isSome = true ↔ (0 < mi.trueCount ∧ mi.onlyTrue = true) := by
  constructor
  · intro h
    obtain ⟨d, hd⟩ := Option.isSome_iff_exists.mp h
    obtain ⟨_, _, h3, h4⟩ := emitDiag_some mi d hd
    exact ⟨h3, h4⟩
  · intro hh
    have hb : (mi.trueCount == 0 || !mi.onlyTrue) = false := by
      simp [hh.2, Nat.pos_iff_ne_zero.mp hh.1]
    have hb2 : (effPos mi == noPos) = false := beq_false_of_ne hpos
    have hkey : emitDiag mi = some { pos := effPos mi, message := mapBoolMsg mi.keyType } := by
      show (if (mi.trueCount == 0 || !mi.onlyTrue) = true then none
        else if (effPos mi == noPos) = true then none
        else some ({ pos := effPos mi, message := mapBoolMsg mi.keyType } : Diagnostic)) =
        some ({ pos := effPos mi, message := mapBoolMsg mi.keyType } : Diagnostic)
      rw [hb, hb2]
      simp
    rw [hkey]
    rfl

theorem diagsOf_eq_nil (rs : List MapInfo) (o : Object)
    (h : ∀ mi ∈ rs, mi.obj = o → mi.onlyTrue = false) : diagsOf rs o = [] := by
  unfold diagsOf
  refine List.filterMap_eq_nil_iff.mpr ?_
  intro mi hmi
  have hm := List.mem_filter.mp hmi
  exact emitDiag_none_of_notOnlyTrue mi (h mi hm.1 (beq_iff_eq.mp hm.2))

theorem analyze_mem (pkg : Package) (files : List (List WStmt)) (d : Diagnostic)
    (h : d ∈ Analyze pkg files) :
    ∃ mi ∈ (foldFiles pkg initialState files).results, emitDiag mi = some d := by
  unfold Analyze at h
  split at h
  · exact absurd h (by simp)
  · exact List.mem_filterMap.mp h

/-! Walk computation for the literal-true-only program family `progC1`. -/

theorem c1_step_write (k : Nat) :
    stepStmt pkgP { results := [recC1 k], boolValues := [] } writeC1 =
      { results := [recC1 (k + 1)], boolValues := [] } := rfl

theorem c1_step_tuple (k : Nat) :
    stepStmt pkgP { results := [recC1 k], boolValues := [] } tupleC1 =
      { results := [recC1 (k + 2)], boolValues := [] } := rfl

theorem c1_fold (n : Nat) : ∀ k : Nat,
    foldStmts pkgP { results := [recC1 k], boolValues := [] }
      (List.replicate n writeC1 ++ [tupleC1]) =
      { results := [recC1 (k + n + 2)], boolValues := [] } := by
  induction n with
  | zero =>
    intro k
    show foldStmts pkgP (stepStmt pkgP { results := [recC1 k], boolValues := [] } tupleC1) [] = _
    rw [c1_step_tuple]
    rfl
  | succ m ih =>
    intro k
    show foldStmts pkgP (stepStmt pkgP { results := [recC1 k], boolValues := [] } writeC1)
      (List.replicate m writeC1 ++ [tupleC1]) = _
    rw [c1_step_write, ih (k + 1)]
    have harith : k + 1 + m + 2 = k + (m + 1) + 2 := by omega
    rw [harith]

/-- C1: the aggregation loop in `Analyze` emits a diagnostic for a record
(with an available anchoring position) exactly when `trueCount > 0` and
the record is not disproved (`onlyTrue` still set); every emitted
diagnostic's message is exactly
`map[<key>]bool only stores true values; consider map[<key>]struct{}`
with `<key>` the record's rendered key type; and the binding of the
literal-true-only program family `progC1` (one composite-literal entry,
`n` single-form writes, one tuple write) yields exactly one diagnostic
regardless of `n`. -/
theorem claimC1 :
    (∀ mi : MapInfo, effPos mi ≠ noPos →
      ((emitDiag mi).isSome = true ↔ (0 < mi.trueCount ∧ mi.onlyTrue = true))) ∧
    (∀ (mi : MapInfo) (d : Diagnostic), emitDiag mi = some d →
      d.message = "map[" ++ mi.keyType ++ "]bool only stores true values; consider map[" ++ mi.keyType ++ "]struct\x7b\x7d") ∧
    (∀ n : Nat, Analyze pkgP [progC1 n] = [{ pos := 30, message := mapBoolMsg "string" }]) := by
  refine ⟨emitDiag_isSome_iff, ?_, ?_⟩
  · intro mi d h
    rw [(emitDiag_some mi d h).1]
    rfl
  · intro n
    show (foldFiles pkgP initialState [progC1 n]).results.filterMap emitDiag = _
    rw [show foldFiles pkgP initialState [progC1 n] =
        foldStmts pkgP (stepStmt pkgP initialState declC1)
          (List.replicate n writeC1 ++ [tupleC1]) from rfl]
    rw [show stepStmt pkgP initialState declC1 =
        { results := [recC1 1], boolValues := [] } from rfl]
    rw [c1_fold n 1]
    rfl

/-- Witness for C1 at concrete inputs. -/
theorem claimC1_witness :
    ((emitDiag (recC1 2)).isSome = true ↔ (0 < (recC1 2).trueCount ∧ (recC1 2).onlyTrue = true)) ∧
    (({ pos := 30, message := mapBoolMsg "string" } : Diagnostic).message =
      "map[" ++ (recC1 2).keyType ++ "]bool only stores true values; consider map[" ++ (recC1 2).keyType ++ "]struct\x7b\x7d") ∧
    Analyze pkgP [progC1 2] = [{ pos := 30, message := mapBoolMsg "string" }] :=
  ⟨claimC1.1 (recC1 2) (by decide),
   claimC1.2.1 (recC1 2) { pos := 30, message := mapBoolMsg "string" } (by decide),
   claimC1.2.2 2⟩

theorem updateRec_onlyTrue_of_notTrue (st : AState) (rhs : Expr) (wpos : Pos) (mi : MapInfo)
    (h : isDefinitelyTrue st rhs = false) : (updateRec st rhs wpos mi).onlyTrue = false := by
  unfold updateRec
  rw [h]
  simp

/-- C2: recording a write whose value is not provably true clears the
record's `onlyTrue` flag; once a binding's record is disproved it stays
disproved through the rest of the walk (its `trueCount`, positive or not,
notwithstanding), and the binding contributes no diagnostic to the
output. -/
theorem claimC2 :
    (∀ (st : AState) (o : Object) (rhs : Expr) (wpos : Pos),
      isDefinitelyTrue st rhs = false →
      ∀ mi ∈ (recordAssignment st o rhs wpos).results, mi.obj = o → mi.onlyTrue = false) ∧
    (∀ (pkg : Package) (stmts : List WStmt) (st : AState) (o : Object),
      DisprovedAll o st.results →
      DisprovedAll o (foldStmts pkg st stmts).results ∧
      diagsOf (foldStmts pkg st stmts).results o = []) ∧
    (∀ (pkg : Package) (files : List (List WStmt)) (st : AState) (o : Object),
      DisprovedAll o st.results →
      DisprovedAll o (foldFiles pkg st files).results ∧
      diagsOf (foldFiles pkg st files).results o = []) := by
  refine ⟨?_, ?_, ?_⟩
  · intro st o rhs wpos hfalse x hx hobjx
    obtain ⟨mi, hmem, hEq⟩ := List.mem_map.mp hx
    by_cases hm : (mi.obj == o) = true
    · rw [if_pos hm] at hEq
      rw [← hEq]
      exact updateRec_onlyTrue_of_notTrue st rhs wpos mi hfalse
    · rw [if_neg hm] at hEq
      rw [← hEq] at hobjx
      exact absurd (beq_iff_eq.mpr hobjx) hm
  · intro pkg stmts st o h
    have hfin : DisprovedAll o (foldStmts pkg st stmts).results :=
      foldStmts_preserve (fun s => DisprovedAll o s.results)
        (fun s o2 rhs hs => disprovedAll_recordVarAssignment o s o2 rhs hs)
        (fun pkg2 s ob hs => disprovedAll_infoFor o pkg2 s ob hs)
        (fun s o2 rhs wpos hs => disprovedAll_recordAssignment o s o2 rhs wpos hs)
        pkg stmts st h
    exact ⟨hfin, diagsOf_eq_nil _ o hfin.2⟩
  · intro pkg files st o h
    have hfin : DisprovedAll o (foldFiles pkg st files).results :=
      foldFiles_preserve (fun s => DisprovedAll o s.results)
        (fun s o2 rhs hs => disprovedAll_recordVarAssignment o s o2 rhs hs)
        (fun pkg2 s ob hs => disprovedAll_infoFor o pkg2 s ob hs)
        (fun s o2 rhs wpos hs => disprovedAll_recordAssignment o s o2 rhs wpos hs)
        pkg files st h
    exact ⟨hfin, diagsOf_eq_nil _ o hfin.2⟩

/-- Witness for C2: after `set` receives a literal-false write, a further
literal-true write leaves it disproved and diagnostic-free. -/
theorem claimC2_witness :
    (DisprovedAll setL (foldStmts pkgP stC2 [writeC1]).results ∧
      diagsOf (foldStmts pkgP stC2 [writeC1]).results setL = []) ∧
    (DisprovedAll setL (foldFiles pkgP stC2 [[writeC1]]).results ∧
      diagsOf (foldFiles pkgP stC2 [[writeC1]]).results setL = []) ∧
    (∀ mi ∈ (recordAssignment stC2 setL (makeCall .tyBool 50) 51).results,
      mi.obj = setL → mi.onlyTrue = false) :=
  ⟨claimC2.2.1 pkgP [writeC1] stC2 setL (by unfold DisprovedAll; decide),
   claimC2.2.2 pkgP [[writeC1]] stC2 setL (by unfold DisprovedAll; decide),
   claimC2.1 stC2 setL (makeCall .tyBool 50) 51 (by decide)⟩

/-- C3: an indexed assignment whose left-hand map target `mapObject`
cannot resolve leaves the analyzer state exactly as it was (no record is
created or updated, no truth state changes, and there is no error path),
and the pointer-indirection program `progC3` produces no diagnostics. -/
theorem claimC3 :
    (∀ (pkg : Package) (st : AState) (tok : Tok) (rhs : List Expr) (i : Nat) (x : Expr)
      (tv : Option TV) (ipos : Pos), mapObject x = none →
      assignPair pkg rhs tok st i (.indexE x tv ipos) = st) ∧
    Analyze pkgP [progC3] = [] := by
  constructor
  · intro pkg st tok rhs i x tv ipos h
    unfold assignPair
    cases he : exprAt rhs rhs.length i with
    | none => rfl
    | some r =>
      dsimp only
      rw [h]
      split
      · rfl
      · rfl
  · decide

/-- Witness for C3 at a concrete pointer-indirection target. -/
theorem claimC3_witness :
    assignPair pkgP [litTrue 48] .assignT initialState 0
      (.indexE ptrX (some { typ := some .tyBool, val := none }) 40) = initialState :=
  claimC3.1 pkgP initialState .assignT [litTrue 48] 0 ptrX
    (some { typ := some .tyBool, val := none }) 40 (by decide)

/-- C4: for a tracked local boolean binding (a variable object, boolean
type, local per `isLocalVar`), one `recordVarAssignment` step follows the
latch: a provably-true right-hand side promotes only the `truthUnknown`
state to `truthAlwaysTrue` (leaving any other state as it was), any other
right-hand side forces `truthNotAlwaysTrue`; and a `truthNotAlwaysTrue`
state survives any continuation of the walk. -/
theorem claimC4 :
    (∀ (st : AState) (o : Object) (rhs : Expr),
      o.kind = .varK → isBool o.typ = true → isLocalVar o = true →
      lookupTruth (recordVarAssignment st o rhs).boolValues o =
        (if isDefinitelyTrue st rhs = true then
          (if lookupTruth st.boolValues o = .truthUnknown then .truthAlwaysTrue
           else lookupTruth st.boolValues o)
         else .truthNotAlwaysTrue)) ∧
    (∀ (pkg : Package) (stmts : List WStmt) (st : AState) (o : Object),
      lookupTruth st.boolValues o = .truthNotAlwaysTrue →
      lookupTruth (foldStmts pkg st stmts).boolValues o = .truthNotAlwaysTrue) := by
  constructor
  · intro st o rhs h1 h2 h3
    unfold recordVarAssignment
    have e1 : (o.kind != ObjKind.varK) = false := by simp [h1]
    have e2 : (!(isBool o.typ)) = false := by simp [h2]
    have e3 : (!(isLocalVar o)) = false := by simp [h3]
    rw [e1, e2, e3]
    simp only [Bool.false_eq_true, if_false]
    by_cases hd : isDefinitelyTrue st rhs = true
    · rw [hd]
      simp only [if_true]
      by_cases hu : lookupTruth st.boolValues o = .truthUnknown
      · have hb : (lookupTruth st.boolValues o == truthState.truthUnknown) = true :=
          beq_iff_eq.mpr hu
        rw [hb]
        simp only [if_true, hu]
        exact lookupTruth_updTruth_self ..
      · have hb : (lookupTruth st.boolValues o == truthState.truthUnknown) = false :=
          beq_false_of_ne hu
        rw [hb]
        simp [hu]
    · have hd2 : isDefinitelyTrue st rhs = false := by simpa using hd
      rw [hd2]
      simp only [Bool.false_eq_true, if_false]
      exact lookupTruth_updTruth_self ..
  · intro pkg stmts st o h
    exact foldStmts_preserve (fun s => lookupTruth s.boolValues o = .truthNotAlwaysTrue)
      (fun s o2 rhs hs => notAlways_recordVarAssignment o s o2 rhs hs)
      (fun pkg2 s ob hs => notAlways_infoFor o pkg2 s ob hs)
      (fun s o2 rhs wpos hs => notAlways_recordAssignment o s o2 rhs wpos hs)
      pkg stmts st h

/-- Witness for C4: the latch on `flagL` at concrete states. -/
theorem claimC4_witness :
    (lookupTruth (recordVarAssignment initialState flagL (litTrue 22)).boolValues flagL =
      (if isDefinitelyTrue initialState (litTrue 22) = true then
        (if lookupTruth initialState.boolValues flagL = .truthUnknown then .truthAlwaysTrue
         else lookupTruth initialState.boolValues flagL)
       else .truthNotAlwaysTrue)) ∧
    lookupTruth (foldStmts pkgP stC4 [defineStmt "alias" aliasL 25 (litTrue 27), writeC1]).boolValues flagL =
      .truthNotAlwaysTrue :=
  ⟨claimC4.1 initialState flagL (litTrue 22) (by decide) (by decide) (by decide),
   claimC4.2 pkgP [defineStmt "alias" aliasL 25 (litTrue 27), writeC1] stC4 flagL (by decide)⟩

/-- C5: a package-scope variable (its parent scope is its package's
scope) is never entered into the truth table, so starting from the fresh
state it always reads `truthUnknown`; consequently an identifier
resolving to such a variable is never provably true and a map write using
it is a disproof; the concrete contrast shows the package-scope
`alwaysTrue` yielding no diagnostic while the same-named local yields
one. -/
theorem claimC5 :
    (∀ (st : AState) (g : Object) (rhs : Expr) (p : Package),
      g.pkg = some p → g.parent = some p.scopeId →
      recordVarAssignment st g rhs = st) ∧
    (∀ (pkg : Package) (files : List (List WStmt)) (g : Object),
      isLocalVar g = false →
      lookupTruth (foldFiles pkg initialState files).boolValues g = .truthUnknown) ∧
    (∀ (st : AState) (g : Object) (n : String) (d : Option Object) (tv : Option TV) (q : Pos),
      g.kind = .varK → lookupTruth st.boolValues g ≠ .truthAlwaysTrue → constBoolOf tv = none →
      isDefinitelyTrue st (.identE n (some g) d tv q) = false) ∧
    (Analyze pkgP [progC5G] = [] ∧
      Analyze pkgP [progC5L] = [{ pos := 30, message := mapBoolMsg "string" }]) := by
  refine ⟨?_, ?_, ?_, by decide, by decide⟩
  · intro st g rhs p hpk hpar
    have hloc : isLocalVar g = false := by
      simp [isLocalVar, hpk, hpar]
    unfold recordVarAssignment
    split
    · rfl
    · split
      · rfl
      · split
        · rfl
        case isFalse h3 =>
          exfalso
          rw [hloc] at h3
          exact h3 (by simp)
  · intro pkg files g hg
    have hall : ∀ p ∈ (foldFiles pkg initialState files).boolValues, isLocalVar p.1 = true :=
      foldFiles_preserve (fun s => ∀ p ∈ s.boolValues, isLocalVar p.1 = true)
        (fun s o2 rhs hs => allLocal_recordVarAssignment s o2 rhs hs)
        (fun pkg2 s ob hs => allLocal_infoFor pkg2 s ob hs)
        (fun s o2 rhs wpos hs => allLocal_recordAssignment s o2 rhs wpos hs)
        pkg files initialState (by intro p hp; exact absurd hp (by simp [initialState]))
    exact lookupTruth_unknown_of_notLocal _ g hall hg
  · intro st g n d tv q hk hla hcb
    have e1 : isDefinitelyTrue st (.identE n (some g) d tv q) = objectIsDefinitelyTrue st g := by
      simp [isDefinitelyTrue, hcb]
    rw [e1]
    unfold objectIsDefinitelyTrue
    rw [hk]
    exact beq_false_of_ne hla

/-- Witness for C5 at the package-scope `alwaysTrue` variable. -/
theorem claimC5_witness :
    recordVarAssignment initialState globalG (litTrue 6) = initialState ∧
    lookupTruth (foldFiles pkgP initialState [progC5G]).boolValues globalG = .truthUnknown ∧
    isDefinitelyTrue stC2 (.identE "alwaysTrue" (some globalG) none
      (some { typ := some .tyBool, val := none }) 45) = false :=
  ⟨claimC5.1 initialState globalG (litTrue 6) pkgP (by decide) (by decide),
   claimC5.2.1 pkgP [progC5G] globalG (by decide),
   claimC5.2.2.1 stC2 globalG "alwaysTrue" none (some { typ := some .tyBool, val := none }) 45
     (by decide) (by decide) (by decide)⟩

/-- C6 (divergence of the code from its stated rule): `isLocalVar` means
to skip function parameters (its comment says parameters are excluded),
but its test `v.Pos() == token.NoPos` does not exclude them: a resolved
parameter carries the valid source position of its name and lives in the
function scope, as `paramP` does here.  Consequently, in
`func f(p bool) { p = true; set := make(map[string]bool); set["a"] = p }`
the parameter is latched always-true by the `p = true` assignment and the
map write `set["a"] = p` is proved, so the map IS flagged — the claim
(and the spec and the code's own comment) say a parameter-valued write
must count as a disproof and the map must not be flagged. -/
theorem claimC6_bug :
    Analyze pkgP [progC6] = [{ pos := 30, message := mapBoolMsg "string" }] ∧
    isLocalVar paramP = true := by
  constructor
  · decide
  · decide

/-- C7: local truth propagation through an alias.  In `progC7A`
(`flag := true; alias := flag; set["a"] = alias`) the write is proved and
the map is flagged; in `progC7B`, where `flag` is reassigned a call
result before the copy and the map write, the write is not proved and
nothing is flagged. -/
theorem claimC7 :
    Analyze pkgP [progC7A] = [{ pos := 30, message := mapBoolMsg "string" }] ∧
    Analyze pkgP [progC7B] = [] := by
  constructor
  · decide
  · decide

/-- C8 counterexample: in `progC8` the binding is declared at position 5
and its first (valid) recorded write is at position 20, yet the emitted
diagnostic is anchored at the declaration position 5, not at the first
write as the claim states. -/
theorem claimC8_cex :
    Analyze pkgP [progC8] = [{ pos := 5, message := mapBoolMsg "string" }] ∧
    Analyze pkgP [progC8] ≠ [{ pos := 20, message := mapBoolMsg "string" }] := by
  constructor
  · decide
  · decide

/-- C8 amended: a registry record is created with its position already
set to the binding's declaration position; `recordAssignment` stores a
write position only when the record position is still unset (declaration
position invalid) and the write position is valid; the diagnostic is
anchored at the record position when valid, at the declaration position
otherwise, and `progC8`'s diagnostic sits at the declaration position 5. -/
theorem claimC8_amended :
    (∀ (pkg : Package) (st : AState) (o : Object),
      ∀ mi ∈ ((infoFor pkg st (some o)).2).results,
        mi ∈ st.results ∨ (mi.obj = o ∧ mi.pos = o.pos ∧ mi.trueCount = 0 ∧ mi.onlyTrue = true)) ∧
    (∀ (st : AState) (rhs : Expr) (wpos : Pos) (mi : MapInfo),
      (updateRec st rhs wpos mi).pos = if mi.pos = noPos ∧ wpos ≠ noPos then wpos else mi.pos) ∧
    (∀ mi : MapInfo, 0 < mi.trueCount → mi.onlyTrue = true →
      emitDiag mi = (if mi.pos ≠ noPos then some { pos := mi.pos, message := mapBoolMsg mi.keyType }
        else if mi.obj.pos ≠ noPos then some { pos := mi.obj.pos, message := mapBoolMsg mi.keyType }
        else none)) ∧
    Analyze pkgP [progC8] = [{ pos := 5, message := mapBoolMsg "string" }] := by
  refine ⟨?_, ?_, ?_, by decide⟩
  · intro pkg st o mi hmi
    unfold infoFor at hmi
    dsimp only at hmi
    split at hmi
    · exact Or.inl hmi
    · split at hmi
      · split at hmi
        · split at hmi
          · exact Or.inl hmi
          · dsimp only at hmi
            rcases List.mem_append.mp hmi with hm | hm
            · exact Or.inl hm
            · right
              have he := List.mem_singleton.mp hm
              rw [he]
              exact ⟨rfl, rfl, rfl, rfl⟩
        · exact Or.inl hmi
      · exact Or.inl hmi
  · intro st rhs wpos mi
    rw [updateRec_pos]
  · intro mi hc ho
    have hb : (mi.trueCount == 0 || !mi.onlyTrue) = false := by
      simp [ho, Nat.pos_iff_ne_zero.mp hc]
    by_cases h1 : mi.pos = noPos
    · have he : effPos mi = mi.obj.pos := by simp [effPos, h1]
      by_cases h2 : mi.obj.pos = noPos
      · show (if (mi.trueCount == 0 || !mi.onlyTrue) = true then none
          else if (effPos mi == noPos) = true then none
          else some ({ pos := effPos mi, message := mapBoolMsg mi.keyType } : Diagnostic)) = _
        rw [hb, he]
        simp [h1, h2]
      · show (if (mi.trueCount == 0 || !mi.onlyTrue) = true then none
          else if (effPos mi == noPos) = true then none
          else some ({ pos := effPos mi, message := mapBoolMsg mi.keyType } : Diagnostic)) = _
        rw [hb, he, beq_false_of_ne h2]
        simp [h1, h2]
    · have he : effPos mi = mi.pos := by simp [effPos, h1]
      show (if (mi.trueCount == 0 || !mi.onlyTrue) = true then none
        else if (effPos mi == noPos) = true then none
        else some ({ pos := effPos mi, message := mapBoolMsg mi.keyType } : Diagnostic)) = _
      rw [hb, he, beq_false_of_ne h1]
      simp [h1]

/-- Witness for C8 (amended) at concrete inputs. -/
theorem claimC8_amended_witness :
    (∀ mi ∈ ((infoFor pkgP initialState (some setC8)).2).results,
      mi ∈ initialState.results ∨
        (mi.obj = setC8 ∧ mi.pos = setC8.pos ∧ mi.trueCount = 0 ∧ mi.onlyTrue = true)) ∧
    ((updateRec stC2 (litTrue 45) 20 (recC1 1)).pos =
      if (recC1 1).pos = noPos ∧ (20 : Pos) ≠ noPos then 20 else (recC1 1).pos) ∧
    emitDiag (recC1 1) = (if (recC1 1).pos ≠ noPos then
        some { pos := (recC1 1).pos, message := mapBoolMsg (recC1 1).keyType }
      else if (recC1 1).obj.pos ≠ noPos then
        some { pos := (recC1 1).obj.pos, message := mapBoolMsg (recC1 1).keyType }
      else none) :=
  ⟨claimC8_amended.1 pkgP initialState setC8,
   claimC8_amended.2.1 stC2 (litTrue 45) 20 (recC1 1),
   claimC8_amended.2.2.1 (recC1 1) (by decide) (by decide)⟩

/-- C9 counterexample: `Analyze` hands back the registry in iteration
order without sorting; in `progC9` the record created first belongs to
the binding declared at offset 100 and the output lists it before the
offset-50 diagnostic, so the core's output is not sorted by ascending
source offset. -/
theorem claimC9_cex :
    Analyze pkgP [progC9] =
      [{ pos := 100, message := mapBoolMsg "string" },
       { pos := 50, message := mapBoolMsg "string" }] ∧
    ¬ List.Sorted diagLE (Analyze pkgP [progC9]) := by
  have e : Analyze pkgP [progC9] =
      [{ pos := 100, message := mapBoolMsg "string" },
       { pos := 50, message := mapBoolMsg "string" }] := by decide
  refine ⟨e, ?_⟩
  rw [e]
  intro h
  have h100 := (List.sorted_cons.mp h).1 { pos := 50, message := mapBoolMsg "string" } (by simp)
  exact absurd h100 (by decide)

/-- C9 amended: the core returns diagnostics unsorted (in registry
iteration order); the deterministic ascending-offset order is established
by the CLI driver, whose sort of `Analyze`'s output is sorted by
ascending position and is a permutation of that output. -/
theorem claimC9_amended :
    ∀ (pkg : Package) (files : List (List WStmt)),
      List.Sorted diagLE (sortDiags (Analyze pkg files)) ∧
      (sortDiags (Analyze pkg files)).Perm (Analyze pkg files) :=
  fun pkg files =>
    ⟨List.sorted_insertionSort diagLE (Analyze pkg files),
     List.perm_insertionSort diagLE (Analyze pkg files)⟩

/-- C10: every diagnostic `Analyze` returns carries a valid position; a
write recorded with an invalid position never changes a record's
position; an eligible record whose own position is unset is emitted at
the binding's declaration position when that is valid; and when neither
position is valid the record is silently dropped. -/
theorem claimC10 :
    (∀ (pkg : Package) (files : List (List WStmt)) (d : Diagnostic),
      d ∈ Analyze pkg files → d.pos ≠ noPos) ∧
    (∀ (st : AState) (rhs : Expr) (mi : MapInfo), (updateRec st rhs noPos mi).pos = mi.pos) ∧
    (∀ mi : MapInfo, 0 < mi.trueCount → mi.onlyTrue = true → mi.pos = noPos →
      mi.obj.pos ≠ noPos →
      emitDiag mi = some { pos := mi.obj.pos, message := mapBoolMsg mi.keyType }) ∧
    (∀ mi : MapInfo, mi.pos = noPos → mi.obj.pos = noPos → emitDiag mi = none) := by
  refine ⟨?_, ?_, ?_, ?_⟩
  · intro pkg files d hd
    obtain ⟨mi, _, hsome⟩ := analyze_mem pkg files d hd
    obtain ⟨hdEq, hne, _, _⟩ := emitDiag_some mi d hsome
    rw [hdEq]
    exact hne
  · intro st rhs mi
    rw [updateRec_pos]
    simp
  · intro mi hc ho h1 h2
    have hb : (mi.trueCount == 0 || !mi.onlyTrue) = false := by
      simp [ho, Nat.pos_iff_ne_zero.mp hc]
    have he : effPos mi = mi.obj.pos := by simp [effPos, h1]
    show (if (mi.trueCount == 0 || !mi.onlyTrue) = true then none
      else if (effPos mi == noPos) = true then none
      else some ({ pos := effPos mi, message := mapBoolMsg mi.keyType } : Diagnostic)) = _
    rw [hb, he, beq_false_of_ne h2]
    simp
  · intro mi h1 h2
    have he : effPos mi = noPos := by simp [effPos, h1, h2]
    show (if (mi.trueCount == 0 || !mi.onlyTrue) = true then none
      else if (effPos mi == noPos) = true then none
      else some ({ pos := effPos mi, message := mapBoolMsg mi.keyType } : Diagnostic)) = none
    split
    · rfl
    · rw [beq_iff_eq.mpr he]
      rfl

/-- Witness for C10 at concrete inputs. -/
theorem claimC10_witness :
    (({ pos := 30, message := mapBoolMsg "string" } : Diagnostic).pos ≠ noPos) ∧
    (updateRec stC2 (litTrue 45) noPos (recC1 1)).pos = (recC1 1).pos ∧
    emitDiag miNoPos = some { pos := miNoPos.obj.pos, message := mapBoolMsg miNoPos.keyType } ∧
    emitDiag miNoPos2 = none :=
  ⟨claimC10.1 pkgP [progC1 0] { pos := 30, message := mapBoolMsg "string" } (by decide),
   claimC10.2.1 stC2 (litTrue 45) (recC1 1),
   claimC10.2.2.1 miNoPos (by decide) (by decide) (by decide) (by decide),
   claimC10.2.2.2 miNoPos2 (by decide) (by decide)⟩
